import Mathlib

/-!
Verification development for the AntibodyHumanization repository
(`src/python/src/humanization`), centred on `reverse_humanizer.py` and
`v_gene_scorer.py`.  Python sequences of amino-acid tokens are embedded as
lists of `PyVal`; Python floats are embedded as rationals; fallible Python
operations (list indexing, tuple unpacking, division) return `Except PyErr`.
Components of the repository that live outside `src/` (the abstract-humanizer
helpers and the annotation service) are modelled from the specification, as
flagged in their doc comments.
-/

/-- A Python runtime value as it can appear inside the mutable sequence list:
a string (amino-acid tokens are one-character strings, but the language does
not enforce that), a number, or `None`. -/
inductive PyVal where
  | str (s : String)
  | num (q : ℚ)
  | none
deriving DecidableEq

/-- The Python exceptions the embedded code can raise. -/
inductive PyErr where
  | runtimeError (msg : String)
  | valueError
  | indexError
  | zeroDivisionError
  | attributeError
deriving DecidableEq

/-- Python list subscription `l[i]`: `IndexError` when out of range. -/
def listGet {α : Type} (l : List α) (i : ℕ) : Except PyErr α :=
  match l[i]? with
  | some x => Except.ok x
  | Option.none => Except.error PyErr.indexError

/-- Python list item assignment `l[i] = v`: `IndexError` when out of range. -/
def listSet {α : Type} (l : List α) (i : ℕ) (v : α) : Except PyErr (List α) :=
  if i < l.length then Except.ok (l.set i v) else Except.error PyErr.indexError

/-- Python string subscription `s[i]`, which yields a one-character string. -/
def strGet (s : String) (i : ℕ) : Except PyErr PyVal :=
  match s.data[i]? with
  | some c => Except.ok (PyVal.str (String.singleton c))
  | Option.none => Except.error PyErr.indexError

/-- The counting loop of `calc_score` (v_gene_scorer.py lines 14-19) over an
explicit list of positions, threading the `same` and `total` counters.  Both
sides of a position are always subscripted (the equality test subscripts
`seq_2` even when the `or` condition short-circuits), so both accesses are
performed at every position. -/
def calc_score_go (get1 get2 : ℕ → Except PyErr PyVal) :
    List ℕ → ℕ → ℕ → Except PyErr (ℕ × ℕ)
  | [], same, total => Except.ok (same, total)
  | i :: rest, same, total =>
    match get1 i, get2 i with
    | Except.ok a, Except.ok b =>
      if a ≠ PyVal.str "X" ∨ b ≠ PyVal.str "X" then
        calc_score_go get1 get2 rest (if a = b then same + 1 else same) (total + 1)
      else
        calc_score_go get1 get2 rest same total
    | Except.error e, _ => Except.error e
    | _, Except.error e => Except.error e

/-- `calc_score` from v_gene_scorer.py, generic in how the two sequences are
subscripted (the Python function is duck-typed in `seq_2`: the scorer passes a
raw string, the humanizer's metrics pass an annotated list).  Scans positions
`0 .. v_gene_end` inclusive and divides; `same / total` raises
`ZeroDivisionError` when no position was informative. -/
def calc_score_core (get1 get2 : ℕ → Except PyErr PyVal) (vGeneEnd : ℕ) :
    Except PyErr ℚ :=
  match calc_score_go get1 get2 (List.range (vGeneEnd + 1)) 0 0 with
  | Except.error e => Except.error e
  | Except.ok (same, total) =>
    if total = 0 then Except.error PyErr.zeroDivisionError
    else Except.ok ((same : ℚ) / (total : ℚ))

/-- `calc_score(seq_1, seq_2, annotation)` as called by `VGeneScorer.query`:
`seq_1` is the annotated query (a list of tokens), `seq_2` a stored reference
sample (a raw string, subscripted per character). -/
def calc_score (seq1 : List PyVal) (seq2 : String) (vGeneEnd : ℕ) :
    Except PyErr ℚ :=
  calc_score_core (listGet seq1) (strGet seq2) vGeneEnd

/-- `is_v_gene_score_less` from v_gene_scorer.py lines 23-26: `True` when
either side is `None`, otherwise the strict `<` comparison. -/
def is_v_gene_score_less (first second : Option ℚ) : Bool :=
  match first, second with
  | Option.none, _ => true
  | _, Option.none => true
  | some f, some s => decide (f < s)

/-- The order realised by `sorted(enumerate(v_gene_scores), key=lambda x: x[1],
reverse=True)`: Python's sort is stable, and on `enumerate` output the first
components are pairwise distinct and increasing, so the stable sort by score
descending produces exactly the lexicographic order "higher score first, then
smaller original index first". -/
def rankPairLe (a b : ℕ × ℚ) : Prop := b.2 < a.2 ∨ (a.2 = b.2 ∧ a.1 ≤ b.1)

instance : DecidableRel rankPairLe := fun a b =>
  inferInstanceAs (Decidable (b.2 < a.2 ∨ (a.2 = b.2 ∧ a.1 ≤ b.1)))

instance : IsTotal (ℕ × ℚ) rankPairLe where
  total a b := by
    rcases lt_trichotomy a.2 b.2 with h | h | h
    · exact Or.inr (Or.inl h)
    · rcases Nat.le_total a.1 b.1 with h1 | h1
      · exact Or.inl (Or.inr ⟨h, h1⟩)
      · exact Or.inr (Or.inr ⟨h.symm, h1⟩)
    · exact Or.inl (Or.inl h)

instance : IsTrans (ℕ × ℚ) rankPairLe where
  trans a b c hab hbc := by
    rcases hab with h1 | ⟨h1, h1'⟩
    · rcases hbc with h2 | ⟨h2, h2'⟩
      · exact Or.inl (h2.trans h1)
      · exact Or.inl (h2 ▸ h1)
    · rcases hbc with h2 | ⟨h2, h2'⟩
      · exact Or.inl (h1 ▸ h2)
      · exact Or.inr ⟨h1.trans h2, h1'.trans h2'⟩

/-- The per-sample scoring map of `VGeneScorer.query` (the `pool.map` over
`self.human_samples`): semantically a sequential map, any worker exception
propagating to the caller (spec section 5 treats the pool as a fork-join map). -/
def map_scores (sequence : List PyVal) (vGeneEnd : ℕ) :
    List String → Except PyErr (List ℚ)
  | [] => Except.ok []
  | s :: rest =>
    match calc_score sequence s vGeneEnd, map_scores sequence vGeneEnd rest with
    | Except.ok q, Except.ok qs => Except.ok (q :: qs)
    | Except.error e, _ => Except.error e
    | _, Except.error e => Except.error e

/-- The rendering loop of `VGeneScorer.query`: for each retained
`(idx, v_gene_score)` pair, append `(human_samples[idx], score, labels[idx])`. -/
def render_top (samples labels : List String) :
    List (ℕ × ℚ) → Except PyErr (List (String × ℚ × String))
  | [] => Except.ok []
  | p :: rest =>
    match listGet samples p.1, listGet labels p.1, render_top samples labels rest with
    | Except.ok s, Except.ok l, Except.ok out => Except.ok ((s, p.2, l) :: out)
    | Except.error e, _, _ => Except.error e
    | _, Except.error e, _ => Except.error e
    | _, _, Except.error e => Except.error e

/-- The V-Gene scorer: the schema boundary `v_gene_end` of its annotation, the
reference population, and the labels (v_gene_scorer.py lines 38-44; the
constructor requires the two lists to have equal length). -/
structure VGeneScorer where
  vGeneEnd : ℕ
  human_samples : List String
  labels : List String

/-- `VGeneScorer.query` (v_gene_scorer.py lines 47-55): score every reference
sample against the query, sort the enumerated scores by score descending
(stable, hence `rankPairLe`, see its doc comment), keep the first two, and render
sample/score/label triples. -/
def VGeneScorer.query (sc : VGeneScorer) (sequence : List PyVal) :
    Except PyErr (List (String × ℚ × String)) :=
  match map_scores sequence sc.vGeneEnd sc.human_samples with
  | Except.error e => Except.error e
  | Except.ok v_gene_scores =>
    render_top sc.human_samples sc.labels
      ((List.insertionSort rankPairLe v_gene_scores.enum).take 2)

/-- A candidate mutation, modelled from the spec (section 3; the defining
module `abstract_humanizer.py` is not under src/): position index or none, the
original amino acid at that position, the candidate amino acid, and the
resulting model score.  A null change has position none and score -1.0. -/
structure SequenceChange where
  position : Option ℕ
  oldAa : PyVal
  aa : PyVal
  value : ℚ
deriving DecidableEq

/-- Modelled from the spec: `SequenceChange.is_defined` — a change is defined
exactly when it carries a position (the null change does not). -/
def SequenceChange.isDefinedChange (c : SequenceChange) : Bool :=
  c.position.isSome

/-- Modelled from the spec (section 4.3): `is_change_less` from
`abstract_humanizer.py` (not under src/) — a total order on candidate changes,
primarily by resulting model score; when `useAaSimilarity` is set, ties are
broken by a pluggable deterministic amino-acid similarity comparator
(`aaSim`), per the spec any deterministic tie-break is conformant. -/
def is_change_less (aaSim : SequenceChange → SequenceChange → Bool)
    (useAaSimilarity : Bool) (l r : SequenceChange) : Bool :=
  if l.value < r.value then true
  else if r.value < l.value then false
  else useAaSimilarity && aaSim l r

/-- One audit-trail record, modelled from the spec (section 3; defined in
`abstract_humanizer.py`, not under src/): iteration number, resulting model
score, resulting V-gene similarity score, and the change applied (none for
the initial record). -/
structure IterationDetails where
  iteration : ℕ
  modelMetric : ℚ
  vGeneScore : Option ℚ
  change : Option SequenceChange
deriving DecidableEq

/-- The dynamically-typed value held by the `human_sample` variable of
`ReverseHumanizer.query` after resolution: either an annotated sequence (the
explicitly supplied sample, annotated), or — on the fallback path — the first
element unpacked from `VGeneScorer.query`'s result list, which is a whole
(sequence, score, label) triple. -/
inductive SampleVal where
  | ann (l : List PyVal)
  | triple (t : String × ℚ × String)

/-- Python subscription `human_sample[idx]` on the resolved sample value: list
indexing for an annotated sample; tuple indexing (3 components, `IndexError`
beyond them) for the fallback triple. -/
def sampleGetItem (sample : SampleVal) (i : ℕ) : Except PyErr PyVal :=
  match sample with
  | SampleVal.ann l => listGet l i
  | SampleVal.triple t =>
    match i with
    | 0 => Except.ok (PyVal.str t.1)
    | 1 => Except.ok (PyVal.num t.2.1)
    | 2 => Except.ok (PyVal.str t.2.2)
    | _ => Except.error PyErr.indexError

/-- `column_name.startswith("fwr")` (reverse_humanizer.py line 58), written
over the character list (a name starts with the framework-region tag exactly
when its first three characters are f, w, r) so that it evaluates under
kernel reduction, which `String.startsWith` does not. -/
def startsWithFwr (s : String) : Bool :=
  decide (s.data.take 3 = ['f', 'w', 'r'])

/-- The chimeric-seed loop of `ReverseHumanizer.query` (lines 57-59): for each
`(idx, column_name)` in the enumerated segmented positions whose name starts
with "fwr", assign `current_seq[idx] = human_sample[idx]`. -/
def build_chimeric_go (sample : SampleVal) :
    List (ℕ × String) → List PyVal → Except PyErr (List PyVal)
  | [], current => Except.ok current
  | p :: rest, current =>
    if startsWithFwr p.2 then
      match sampleGetItem sample p.1 with
      | Except.error e => Except.error e
      | Except.ok v =>
        match listSet current p.1 v with
        | Except.error e => Except.error e
        | Except.ok current1 => build_chimeric_go sample rest current1
    else build_chimeric_go sample rest current

/-- The reverse humanizer: the model wrapper's prediction function and
annotation data, the optional V-gene scorer, and the construction options
(reverse_humanizer.py lines 16-21).  `annotate` stands for the external
`annotate_single` collaborator (annotations module, not under src/), modelled
from the spec (section 6): deterministic, returns none when the sequence
cannot be annotated. -/
structure ReverseHumanizer where
  model : List PyVal → ℚ
  segmented : List String
  vGeneEnd : ℕ
  annotate : String → Option (List PyVal)
  v_gene_scorer : Option VGeneScorer
  skip_positions : List String
  use_aa_similarity : Bool
  aaSim : SequenceChange → SequenceChange → Bool

/-- Modelled from the spec (sections 4.2, 4.3): `_calc_metrics` of the
abstract humanizer (not under src/) — the current model score together with
the V-gene similarity of the current sequence against the human sample in
use, computed by the same position scan as `calc_score` (the sample is
subscripted as the duck-typed `seq_2`). -/
def calcMetrics (H : ReverseHumanizer) (sample : SampleVal)
    (current : List PyVal) : Except PyErr (ℚ × Option ℚ) :=
  match calc_score_core (listGet current) (sampleGetItem sample) H.vGeneEnd with
  | Except.error e => Except.error e
  | Except.ok v => Except.ok (H.model current, some v)

/-- `ReverseHumanizer._test_single_change` (lines 23-31).  The Python method
mutates `sequence` in place and restores it; the embedding returns the
candidate change together with the state of `sequence` after the call. -/
def test_single_change (model : List PyVal → ℚ) (sequence : List PyVal)
    (column_idx : ℕ) (new_aa : PyVal) :
    Except PyErr (SequenceChange × List PyVal) :=
  match listGet sequence column_idx with
  | Except.error e => Except.error e
  | Except.ok aa_backup =>
    if aa_backup = new_aa then
      Except.ok (⟨Option.none, aa_backup, PyVal.none, -1⟩, sequence)
    else
      let mutated := sequence.set column_idx new_aa
      let new_value := model mutated
      Except.ok (⟨some column_idx, aa_backup, new_aa, new_value⟩,
        mutated.set column_idx aa_backup)

/-- The candidate scan of `ReverseHumanizer._find_best_change` (lines 33-41)
over the enumerated segmented positions, threading the best change so far and
the state of `current_seq`. -/
def find_best_go (H : ReverseHumanizer) (original : List PyVal) :
    List (ℕ × String) → SequenceChange → List PyVal →
    Except PyErr (SequenceChange × List PyVal)
  | [], best, cur => Except.ok (best, cur)
  | p :: rest, best, cur =>
    if p.2 ∈ H.skip_positions then find_best_go H original rest best cur
    else
      match listGet original p.1 with
      | Except.error e => Except.error e
      | Except.ok new_aa =>
        match test_single_change H.model cur p.1 new_aa with
        | Except.error e => Except.error e
        | Except.ok (candidate, st) =>
          if is_change_less H.aaSim H.use_aa_similarity best candidate then
            find_best_go H original rest candidate st
          else find_best_go H original rest best st

/-- `ReverseHumanizer._find_best_change` (lines 33-41): scan all positions,
starting from the null change `SequenceChange(None, None, None, -1.0)`. -/
def find_best_change (H : ReverseHumanizer) (current original : List PyVal) :
    Except PyErr (SequenceChange × List PyVal) :=
  find_best_go H original H.segmented.enum
    ⟨Option.none, PyVal.none, PyVal.none, -1⟩ current

/-- Outcome of one round of the greedy loop: `stop` embeds the `break`
statements, `cont` a completed round that appended a record. -/
inductive StepRes where
  | stop (seq : List PyVal) (trail : List IterationDetails)
  | cont (seq : List PyVal) (trail : List IterationDetails)

/-- One round of the greedy loop of `ReverseHumanizer.query` (lines 64-81):
recompute the metrics, find the best change; if undefined, break; otherwise
tentatively apply it, recompute metrics, and either revert-and-break (joint
gate failed) or append the round's record and continue. -/
def loop_step (H : ReverseHumanizer) (sample : SampleVal)
    (target_model_metric target_v_gene_score : ℚ) (original : List PyVal)
    (it : ℕ) (current : List PyVal) (trail : List IterationDetails) :
    Except PyErr StepRes :=
  match calcMetrics H sample current with
  | Except.error e => Except.error e
  | Except.ok (_current_value, _v) =>
    match find_best_change H current original with
    | Except.error e => Except.error e
    | Except.ok (best_change, cur1) =>
      match best_change.position with
      | Option.none => Except.ok (StepRes.stop cur1 trail)
      | some pos =>
        match listGet cur1 pos with
        | Except.error e => Except.error e
        | Except.ok prev_aa =>
          match listSet cur1 pos best_change.aa with
          | Except.error e => Except.error e
          | Except.ok cur2 =>
            match calcMetrics H sample cur2 with
            | Except.error e => Except.error e
            | Except.ok (best_value, v_gene_score) =>
              if target_model_metric ≤ best_value ∧
                  is_v_gene_score_less (some target_v_gene_score) v_gene_score = true then
                Except.ok (StepRes.cont cur2
                  (trail ++ [⟨it, best_value, v_gene_score, some best_change⟩]))
              else
                match listSet cur2 pos prev_aa with
                | Except.error e => Except.error e
                | Except.ok cur3 => Except.ok (StepRes.stop cur3 trail)

/-- The bounded iteration of the greedy loop (`for it in range(1, MAX+1)`),
with the remaining budget as fuel and `it` the current iteration number. -/
def query_loop (H : ReverseHumanizer) (sample : SampleVal)
    (target_model_metric target_v_gene_score : ℚ) (original : List PyVal) :
    ℕ → ℕ → List PyVal → List IterationDetails →
    Except PyErr (List PyVal × List IterationDetails)
  | 0, _, current, trail => Except.ok (current, trail)
  | fuel + 1, it, current, trail =>
    match loop_step H sample target_model_metric target_v_gene_score original
        it current trail with
    | Except.error e => Except.error e
    | Except.ok (StepRes.stop s t) => Except.ok (s, t)
    | Except.ok (StepRes.cont s t) =>
      query_loop H sample target_model_metric target_v_gene_score original
        fuel (it + 1) s t

/-- Modelled from the spec (section 4.3 step 3): `seq_to_str` of the abstract
humanizer (not under src/) — flatten the positional sequence back to a linear
residue string; with the flag unset, wildcard placeholder positions are
dropped. -/
def seq_to_str (seq : List PyVal) (withX : Bool) : String :=
  String.join (seq.filterMap (fun v =>
    match v with
    | PyVal.str s => if withX ∨ s ≠ "X" then some s else Option.none
    | _ => Option.none))

/-- The human-sample resolution of `ReverseHumanizer.query` (lines 50-52):
`if human_sample: human_sample = annotate_single(human_sample, ...)`, followed
by the falsiness test `if not human_sample` deciding the fallback.  Returns
the annotated sample if it is to be used, none if the fallback runs. -/
def resolve_human_sample (H : ReverseHumanizer) (human_sample : Option String) :
    Option (List PyVal) :=
  match human_sample with
  | some s =>
    if s = "" then Option.none
    else
      match H.annotate s with
      | some l => if l.isEmpty then Option.none else some l
      | Option.none => Option.none
  | Option.none => Option.none

/-- The fallback acquisition `human_sample, _ = self.v_gene_scorer.query(...)`
(line 53): attribute access on an absent scorer raises; the returned list is
unpacked into exactly two variables (`ValueError` otherwise), making the
sample the first (sequence, score, label) triple. -/
def fallback_sample (H : ReverseHumanizer) (current : List PyVal) :
    Except PyErr SampleVal :=
  match H.v_gene_scorer with
  | Option.none => Except.error PyErr.attributeError
  | some sc =>
    match sc.query current with
    | Except.error e => Except.error e
    | Except.ok [a, _b] => Except.ok (SampleVal.triple a)
    | Except.ok _ => Except.error PyErr.valueError

/-- The value the `human_sample` variable holds after lines 50-53 of
`ReverseHumanizer.query`: the annotated explicit sample when it is truthy,
otherwise the fallback unpacked from the V-gene scorer. -/
def resolve_sample_value (H : ReverseHumanizer) (human_sample : Option String)
    (current0 : List PyVal) : Except PyErr SampleVal :=
  match resolve_human_sample H human_sample with
  | some l => Except.ok (SampleVal.ann l)
  | Option.none => fallback_sample H current0

/-- Lines 57-82 of `ReverseHumanizer.query`, once the sample is resolved:
build the chimeric seed over "fwr"-prefixed positions, record the iteration-0
baseline, run the bounded greedy loop, and flatten the result. -/
def query_with_sample (H : ReverseHumanizer) (original current0 : List PyVal)
    (sample : SampleVal) (target_model_metric target_v_gene_score : ℚ)
    (max_changes : ℕ) : Except PyErr (String × List IterationDetails) :=
  match build_chimeric_go sample H.segmented.enum current0 with
  | Except.error e => Except.error e
  | Except.ok current =>
    match calcMetrics H sample current with
    | Except.error e => Except.error e
    | Except.ok (v0, vg0) =>
      match query_loop H sample target_model_metric target_v_gene_score
          original max_changes 1 current [⟨0, v0, vg0, Option.none⟩] with
      | Except.error e => Except.error e
      | Except.ok (final, iterations) =>
        Except.ok (seq_to_str final false, iterations)

/-- `ReverseHumanizer.query` (lines 43-82): annotate (fatal if impossible),
keep the original copy, resolve the human sample (falling back to the V-gene
scorer), then run the staged remainder `query_with_sample`. -/
def ReverseHumanizer.query (H : ReverseHumanizer) (sequence : String)
    (target_model_metric : ℚ) (target_v_gene_score : ℚ)
    (human_sample : Option String) (max_changes : ℕ) :
    Except PyErr (String × List IterationDetails) :=
  match H.annotate sequence with
  | Option.none =>
    Except.error (PyErr.runtimeError (sequence ++ " cannot be annotated"))
  | some current0 =>
    match resolve_sample_value H human_sample current0 with
    | Except.error e => Except.error e
    | Except.ok sample =>
      query_with_sample H current0 current0 sample target_model_metric
        target_v_gene_score max_changes

theorem listGet_eq_ok {α : Type} (l : List α) (i : ℕ) (a : α) :
    listGet l i = Except.ok a ↔ l[i]? = some a := by
  unfold listGet
  cases h : l[i]? <;> simp

theorem set_self_of_getElem? {α : Type} :
    ∀ (l : List α) (i : ℕ) (a : α), l[i]? = some a → l.set i a = l
  | [], i, a, h => by simp at h
  | x :: xs, 0, a, h => by
    simp at h
    simp [h]
  | x :: xs, i + 1, a, h => by
    simp at h
    simpa using set_self_of_getElem? xs i a h

theorem test_single_change_state {m : List PyVal → ℚ} {seq : List PyVal}
    {i : ℕ} {a : PyVal} {c : SequenceChange} {st : List PyVal}
    (h : test_single_change m seq i a = Except.ok (c, st)) : st = seq := by
  unfold test_single_change at h
  cases hg : listGet seq i with
  | error e => rw [hg] at h; simp at h
  | ok backup =>
    rw [hg] at h
    by_cases hb : backup = a
    · simp only [if_pos hb] at h
      simp at h
      exact h.2.symm
    · simp only [if_neg hb] at h
      simp at h
      rw [← h.2]
      exact set_self_of_getElem? seq i backup ((listGet_eq_ok seq i backup).mp hg)

theorem find_best_go_state {H : ReverseHumanizer} {orig : List PyVal} :
    ∀ (ps : List (ℕ × String)) (best : SequenceChange) (cur : List PyVal)
      (b : SequenceChange) (st : List PyVal),
      find_best_go H orig ps best cur = Except.ok (b, st) → st = cur
  | [], best, cur, b, st, h => by
    simp [find_best_go] at h
    exact h.2.symm
  | p :: rest, best, cur, b, st, h => by
    rw [find_best_go] at h
    split at h
    · exact find_best_go_state rest best cur b st h
    · split at h
      · simp at h
      · rename_i new_aa hg
        split at h
        · simp at h
        · rename_i candidate st1 ht
          have hst1 : st1 = cur := test_single_change_state ht
          split at h
          · exact (find_best_go_state rest candidate st1 b st h).trans hst1
          · exact (find_best_go_state rest best st1 b st h).trans hst1

/-- C8: `is_v_gene_score_less` returns true whenever either argument is
absent, and on two present values it is exactly the strict comparison; an
absent value therefore loses every comparison. -/
theorem c8_score_less_total :
    (∀ b : Option ℚ, is_v_gene_score_less Option.none b = true) ∧
    (∀ a : Option ℚ, is_v_gene_score_less a Option.none = true) ∧
    (∀ x y : ℚ, is_v_gene_score_less (some x) (some y) = decide (x < y)) := by
  refine ⟨fun b => by cases b <;> rfl, fun a => by cases a <;> rfl,
    fun x y => rfl⟩

/-- C6: `_test_single_change` returns with the sequence in the state it had at
the call (the mutated position is restored, no other position is touched),
and consequently `_find_best_change` leaves `current_seq` unchanged. -/
theorem c6_mutate_restore :
    (∀ (m : List PyVal → ℚ) (seq : List PyVal) (i : ℕ) (a : PyVal)
      (c : SequenceChange) (st : List PyVal),
      test_single_change m seq i a = Except.ok (c, st) → st = seq) ∧
    (∀ (H : ReverseHumanizer) (cur orig : List PyVal)
      (b : SequenceChange) (st : List PyVal),
      find_best_change H cur orig = Except.ok (b, st) → st = cur) :=
  ⟨fun _ _ _ _ _ _ h => test_single_change_state h,
   fun H cur orig b st h =>
    find_best_go_state H.segmented.enum
      ⟨Option.none, PyVal.none, PyVal.none, -1⟩ cur b st h⟩

theorem c6_mutate_restore_witness :
    test_single_change (fun _ => (1 : ℚ)) [PyVal.str "A", PyVal.str "B"] 0
        (PyVal.str "Q") =
      Except.ok (⟨some 0, PyVal.str "A", PyVal.str "Q", 1⟩,
        [PyVal.str "A", PyVal.str "B"]) ∧
    ([PyVal.str "A", PyVal.str "B"] : List PyVal) =
      [PyVal.str "A", PyVal.str "B"] :=
  ⟨by rfl,
   c6_mutate_restore.1 (fun _ => (1 : ℚ)) [PyVal.str "A", PyVal.str "B"] 0
    (PyVal.str "Q") ⟨some 0, PyVal.str "A", PyVal.str "Q", 1⟩
    [PyVal.str "A", PyVal.str "B"] (by rfl)⟩

/-- Position `i` holds the wildcard token in both sequences (claim C5's
"both sequences hold X there"). -/
def both_wildcard (seq1 : List PyVal) (seq2 : String) (i : ℕ) : Prop :=
  seq1[i]? = some (PyVal.str "X") ∧ seq2.data[i]? = some 'X'

instance (seq1 : List PyVal) (seq2 : String) (i : ℕ) :
    Decidable (both_wildcard seq1 seq2 i) :=
  inferInstanceAs (Decidable (seq1[i]? = some (PyVal.str "X") ∧
    seq2.data[i]? = some 'X'))

/-- The two sequences hold equal tokens at position `i` (the query token
equals the reference character, read as a one-character string). -/
def tokens_equal (seq1 : List PyVal) (seq2 : String) (i : ℕ) : Prop :=
  seq1[i]? = Option.map (fun c => PyVal.str (String.singleton c)) seq2.data[i]?
    ∧ seq1[i]? ≠ Option.none

instance (seq1 : List PyVal) (seq2 : String) (i : ℕ) :
    Decidable (tokens_equal seq1 seq2 i) :=
  inferInstanceAs (Decidable (_ ∧ _))

/-- Number of informative positions in `0 .. vGeneEnd`: a position counts
unless both sequences hold the wildcard there (claim C5's denominator). -/
def informative_count (seq1 : List PyVal) (seq2 : String) (vGeneEnd : ℕ) : ℕ :=
  (List.range (vGeneEnd + 1)).countP
    (fun i => decide (¬ both_wildcard seq1 seq2 i))

/-- Number of informative positions where the two tokens are equal (claim
C5's numerator). -/
def match_count (seq1 : List PyVal) (seq2 : String) (vGeneEnd : ℕ) : ℕ :=
  (List.range (vGeneEnd + 1)).countP
    (fun i => decide (¬ both_wildcard seq1 seq2 i ∧ tokens_equal seq1 seq2 i))

theorem calc_score_go_cons_ok {g1 g2 : ℕ → Except PyErr PyVal} {i : ℕ}
    {rest : List ℕ} {s t : ℕ} {a b : PyVal}
    (h1 : g1 i = Except.ok a) (h2 : g2 i = Except.ok b) :
    calc_score_go g1 g2 (i :: rest) s t =
      if a ≠ PyVal.str "X" ∨ b ≠ PyVal.str "X" then
        calc_score_go g1 g2 rest (if a = b then s + 1 else s) (t + 1)
      else calc_score_go g1 g2 rest s t := by
  rw [calc_score_go, h1, h2]

theorem calc_score_go_counts (seq1 : List PyVal) (seq2 : String) :
    ∀ (idxs : List ℕ) (s t : ℕ),
      (∀ i ∈ idxs, i < seq1.length ∧ i < seq2.data.length) →
      calc_score_go (listGet seq1) (strGet seq2) idxs s t =
        Except.ok
          (s + idxs.countP
            (fun i => decide (¬ both_wildcard seq1 seq2 i ∧
              tokens_equal seq1 seq2 i)),
           t + idxs.countP (fun i => decide (¬ both_wildcard seq1 seq2 i)))
  | [], s, t, _ => by simp [calc_score_go]
  | i :: rest, s, t, hin => by
    obtain ⟨hi1, hi2⟩ := hin i (by simp)
    have ha : seq1[i]? = some seq1[i] := List.getElem?_eq_getElem hi1
    have hc : seq2.data[i]? = some seq2.data[i] := List.getElem?_eq_getElem hi2
    have hget1 : listGet seq1 i = Except.ok seq1[i] := by
      unfold listGet; rw [ha]
    have hget2 : strGet seq2 i =
        Except.ok (PyVal.str (String.singleton seq2.data[i])) := by
      unfold strGet; rw [hc]
    have hrest : ∀ j ∈ rest, j < seq1.length ∧ j < seq2.data.length :=
      fun j hj => hin j (by simp [hj])
    rw [calc_score_go_cons_ok hget1 hget2]
    by_cases hbw : both_wildcard seq1 seq2 i
    · have hax : seq1[i] = PyVal.str "X" := by
        have := hbw.1; rw [ha] at this; exact Option.some.inj this
      have hcx : seq2.data[i] = 'X' := by
        have := hbw.2; rw [hc] at this; exact Option.some.inj this
      have hcond : ¬(seq1[i] ≠ PyVal.str "X" ∨
          PyVal.str (String.singleton seq2.data[i]) ≠ PyVal.str "X") := by
        rw [hax, hcx]
        simp [String.singleton]
        rfl
      rw [if_neg hcond]
      rw [calc_score_go_counts seq1 seq2 rest s t hrest]
      have hp1 : (decide (¬ both_wildcard seq1 seq2 i ∧
          tokens_equal seq1 seq2 i)) = false := by
        simp [hbw]
      have hp2 : (decide (¬ both_wildcard seq1 seq2 i)) = false := by
        simp [hbw]
      simp only [Except.ok.injEq, Prod.mk.injEq, List.countP_cons]
      rw [hp1, hp2]
      simp <;> omega
    · have hcond : (seq1[i] ≠ PyVal.str "X" ∨
          PyVal.str (String.singleton seq2.data[i]) ≠ PyVal.str "X") := by
        by_contra hcon
        push_neg at hcon
        apply hbw
        constructor
        · rw [ha, hcon.1]
        · rw [hc]
          have : String.singleton seq2.data[i] = "X" :=
            PyVal.str.inj hcon.2
          have hchar : seq2.data[i] = 'X' := by
            have hh := congrArg String.data this
            simpa [String.singleton] using hh
          rw [hchar]
      rw [if_pos hcond]
      have hteq : (seq1[i] = PyVal.str (String.singleton seq2.data[i])) ↔
          tokens_equal seq1 seq2 i := by
        unfold tokens_equal
        rw [ha, hc]
        simp
      by_cases heq : seq1[i] = PyVal.str (String.singleton seq2.data[i])
      · rw [if_pos heq]
        rw [calc_score_go_counts seq1 seq2 rest (s + 1) (t + 1) hrest]
        have hp1 : (decide (¬ both_wildcard seq1 seq2 i ∧
            tokens_equal seq1 seq2 i)) = true := by
          simp [hbw, hteq.mp heq]
        have hp2 : (decide (¬ both_wildcard seq1 seq2 i)) = true := by
          simp [hbw]
        simp only [Except.ok.injEq, Prod.mk.injEq, List.countP_cons]
        rw [hp1, hp2]
        simp <;> omega
      · rw [if_neg heq]
        rw [calc_score_go_counts seq1 seq2 rest s (t + 1) hrest]
        have hp1 : (decide (¬ both_wildcard seq1 seq2 i ∧
            tokens_equal seq1 seq2 i)) = false := by
          simp only [decide_eq_false_iff_not]
          intro hcontra
          exact heq (hteq.mpr hcontra.2)
        have hp2 : (decide (¬ both_wildcard seq1 seq2 i)) = true := by
          simp [hbw]
        simp only [Except.ok.injEq, Prod.mk.injEq, List.countP_cons]
        rw [hp1, hp2]
        simp <;> omega

theorem calc_score_core_ok {g1 g2 : ℕ → Except PyErr PyVal} {vGeneEnd s t : ℕ}
    (h : calc_score_go g1 g2 (List.range (vGeneEnd + 1)) 0 0 =
      Except.ok (s, t)) :
    calc_score_core g1 g2 vGeneEnd =
      if t = 0 then Except.error PyErr.zeroDivisionError
      else Except.ok ((s : ℚ) / (t : ℚ)) := by
  unfold calc_score_core
  rw [h]

/-- C5: `calc_score` raises exactly when every position up to `v_gene_end`
holds the wildcard in both sequences (no silent fallback value), and
otherwise returns the exact-match count over the informative-position count. -/
theorem c5_calc_score_contract :
    ∀ (seq1 : List PyVal) (seq2 : String) (vGeneEnd : ℕ),
      vGeneEnd < seq1.length → vGeneEnd < seq2.length →
      ((calc_score seq1 seq2 vGeneEnd = Except.error PyErr.zeroDivisionError ↔
          ∀ i ≤ vGeneEnd, both_wildcard seq1 seq2 i) ∧
        ((¬ ∀ i ≤ vGeneEnd, both_wildcard seq1 seq2 i) →
          calc_score seq1 seq2 vGeneEnd =
            Except.ok ((match_count seq1 seq2 vGeneEnd : ℚ) /
              (informative_count seq1 seq2 vGeneEnd : ℚ)))) := by
  intro seq1 seq2 vg h1 h2
  have h2' : vg < seq2.data.length := h2
  have hin : ∀ i ∈ List.range (vg + 1),
      i < seq1.length ∧ i < seq2.data.length := by
    intro i hi
    have := List.mem_range.mp hi
    exact ⟨by omega, by omega⟩
  have hgo := calc_score_go_counts seq1 seq2 (List.range (vg + 1)) 0 0 hin
  have hgo' : calc_score_go (listGet seq1) (strGet seq2)
      (List.range (vg + 1)) 0 0 =
      Except.ok (match_count seq1 seq2 vg, informative_count seq1 seq2 vg) := by
    rw [hgo]
    simp [match_count, informative_count]
  have hic : informative_count seq1 seq2 vg = 0 ↔
      ∀ i ≤ vg, both_wildcard seq1 seq2 i := by
    unfold informative_count
    rw [List.countP_eq_zero]
    constructor
    · intro h i hi
      have := h i (List.mem_range.mpr (by omega))
      simpa using this
    · intro h i hi
      have hle : i ≤ vg := by
        have := List.mem_range.mp hi
        omega
      simpa using h i hle
  unfold calc_score
  rw [calc_score_core_ok hgo']
  constructor
  · by_cases hz : informative_count seq1 seq2 vg = 0
    · rw [if_pos hz]
      exact iff_of_true rfl (hic.mp hz)
    · rw [if_neg hz]
      exact iff_of_false (by simp) (fun hall => hz (hic.mpr hall))
  · intro hnall
    have hz : informative_count seq1 seq2 vg ≠ 0 := fun h => hnall (hic.mp h)
    rw [if_neg hz]

theorem c5_calc_score_contract_witness :
    (1 < 2 ∧ 1 < 2) ∧
    calc_score [PyVal.str "X", PyVal.str "X"] "XX" 1 =
      Except.error PyErr.zeroDivisionError :=
  ⟨⟨by decide, by decide⟩,
   (c5_calc_score_contract [PyVal.str "X", PyVal.str "X"] "XX" 1
      (by decide) (by decide)).1.mpr (by decide)⟩

theorem render_top_length {samples labels : List String} :
    ∀ (ps : List (ℕ × ℚ)) (out : List (String × ℚ × String)),
      render_top samples labels ps = Except.ok out → out.length = ps.length
  | [], out, h => by
    simp [render_top] at h
    simp [← h]
  | p :: rest, out, h => by
    rw [render_top] at h
    split at h
    · rename_i s l out' hs hl hrec
      cases h
      simp [render_top_length rest out' hrec]
    · simp at h
    · simp at h
    · simp at h

theorem render_top_scores {samples labels : List String} :
    ∀ (ps : List (ℕ × ℚ)) (out : List (String × ℚ × String)),
      render_top samples labels ps = Except.ok out →
      out.map (fun x => x.2.1) = ps.map Prod.snd
  | [], out, h => by
    simp [render_top] at h
    simp [← h]
  | p :: rest, out, h => by
    rw [render_top] at h
    split at h
    · rename_i s l out' hs hl hrec
      cases h
      simp [render_top_scores rest out' hrec]
    · simp at h
    · simp at h
    · simp at h

/-- The population of claim C4's concrete scenario: four reference samples
whose similarities against `exampleQuerySeq` are 0.9, 0.5, 0.9, 0.1. -/
def exampleScorer : VGeneScorer :=
  ⟨9, ["AAAAAAAAAB", "AAAAABBBBB", "BAAAAAAAAA", "ABBBBBBBBB"],
    ["L0", "L1", "L2", "L3"]⟩

/-- The query sequence of claim C4's concrete scenario. -/
def exampleQuerySeq : List PyVal := List.replicate 10 (PyVal.str "A")


theorem vgene_query_ok {sc : VGeneScorer} {seq : List PyVal}
    {scores : List ℚ}
    (h : map_scores seq sc.vGeneEnd sc.human_samples = Except.ok scores) :
    sc.query seq = render_top sc.human_samples sc.labels
      ((List.insertionSort rankPairLe scores.enum).take 2) := by
  unfold VGeneScorer.query
  rw [h]

theorem exampleScores :
    map_scores exampleQuerySeq exampleScorer.vGeneEnd
        exampleScorer.human_samples =
      Except.ok [mkRat 9 10, mkRat 1 2, mkRat 9 10, mkRat 1 10] := by
  have hq : ∀ (s : String) (sm tt : ℕ),
      calc_score_go (listGet exampleQuerySeq) (strGet s) (List.range 10) 0 0 =
        Except.ok (sm, tt) → tt ≠ 0 →
      ∀ q : ℚ, (sm : ℚ) / (tt : ℚ) = q →
      calc_score exampleQuerySeq s 9 = Except.ok q := by
    intro s sm tt hgo htt q hval
    unfold calc_score
    rw [calc_score_core_ok hgo, if_neg htt, hval]
  have e0 : calc_score exampleQuerySeq "AAAAAAAAAB" 9 =
      Except.ok (mkRat 9 10) := by
    refine hq "AAAAAAAAAB" 9 10 rfl (by decide) _ ?_
    rw [Rat.mkRat_eq_div]
    norm_num
  have e1 : calc_score exampleQuerySeq "AAAAABBBBB" 9 =
      Except.ok (mkRat 1 2) := by
    refine hq "AAAAABBBBB" 5 10 rfl (by decide) _ ?_
    rw [Rat.mkRat_eq_div]
    norm_num
  have e2 : calc_score exampleQuerySeq "BAAAAAAAAA" 9 =
      Except.ok (mkRat 9 10) := by
    refine hq "BAAAAAAAAA" 9 10 rfl (by decide) _ ?_
    rw [Rat.mkRat_eq_div]
    norm_num
  have e3 : calc_score exampleQuerySeq "ABBBBBBBBB" 9 =
      Except.ok (mkRat 1 10) := by
    refine hq "ABBBBBBBBB" 1 10 rfl (by decide) _ ?_
    rw [Rat.mkRat_eq_div]
    norm_num
  show map_scores exampleQuerySeq 9
      ["AAAAAAAAAB", "AAAAABBBBB", "BAAAAAAAAA", "ABBBBBBBBB"] = _
  have m4 : map_scores exampleQuerySeq 9 [] = Except.ok [] := rfl
  have m3 : map_scores exampleQuerySeq 9 ["ABBBBBBBBB"] =
      Except.ok [mkRat 1 10] := by
    rw [map_scores, e3, m4]
  have m2 : map_scores exampleQuerySeq 9 ["BAAAAAAAAA", "ABBBBBBBBB"] =
      Except.ok [mkRat 9 10, mkRat 1 10] := by
    rw [map_scores, e2, m3]
  have m1 : map_scores exampleQuerySeq 9
      ["AAAAABBBBB", "BAAAAAAAAA", "ABBBBBBBBB"] =
      Except.ok [mkRat 1 2, mkRat 9 10, mkRat 1 10] := by
    rw [map_scores, e1, m2]
  rw [map_scores, e0, m1]

/-- C4: `VGeneScorer.query` returns at most two triples, sorted by similarity
score descending; the retained enumerated pairs are ordered by `rankPairLe`
(score descending, equal scores by smaller original population index); and on
the concrete population with similarities [0.9, 0.5, 0.9, 0.1] it returns the
two 0.9-scored entries in population order, never the 0.5- or 0.1-scored
ones. -/
theorem c4_topk_ordering :
    (∀ (sc : VGeneScorer) (seq : List PyVal)
      (res : List (String × ℚ × String)),
      sc.query seq = Except.ok res →
        res.length ≤ 2 ∧ List.Pairwise (fun x y => y.2.1 ≤ x.2.1) res) ∧
    (∀ scores : List ℚ,
      List.Pairwise rankPairLe (List.insertionSort rankPairLe scores.enum)) ∧
    exampleScorer.query exampleQuerySeq =
      Except.ok [("AAAAAAAAAB", mkRat 9 10, "L0"),
        ("BAAAAAAAAA", mkRat 9 10, "L2")] := by
  refine ⟨?_, fun scores => List.sorted_insertionSort rankPairLe _, ?_⟩
  · intro sc seq res h
    unfold VGeneScorer.query at h
    split at h
    · simp at h
    · rename_i scores hmap
      have hsorted : List.Pairwise rankPairLe
          ((List.insertionSort rankPairLe scores.enum).take 2) :=
        List.Pairwise.sublist (List.take_sublist 2 _)
          (List.sorted_insertionSort rankPairLe scores.enum)
      constructor
      · rw [render_top_length _ res h, List.length_take]
        exact Nat.min_le_left 2 _
      · have hmaps := render_top_scores _ res h
        have hp2 : List.Pairwise (fun (x y : ℚ) => y ≤ x)
            (((List.insertionSort rankPairLe scores.enum).take 2).map
              Prod.snd) := by
          rw [List.pairwise_map]
          refine hsorted.imp ?_
          intro a b hr
          rcases hr with hlt | ⟨heq, _⟩
          · exact le_of_lt hlt
          · exact le_of_eq heq.symm
        rw [← hmaps] at hp2
        rw [List.pairwise_map] at hp2
        exact hp2
  · have hsort : (List.insertionSort rankPairLe
        ([mkRat 9 10, mkRat 1 2, mkRat 9 10, mkRat 1 10].enum)).take 2 =
        [(0, mkRat 9 10), (2, mkRat 9 10)] := by decide
    rw [vgene_query_ok exampleScores, hsort]
    rfl

theorem c4_topk_ordering_witness :
    exampleScorer.query exampleQuerySeq =
      Except.ok [("AAAAAAAAAB", mkRat 9 10, "L0"),
        ("BAAAAAAAAA", mkRat 9 10, "L2")] ∧
    ([("AAAAAAAAAB", mkRat 9 10, "L0"),
      ("BAAAAAAAAA", mkRat 9 10, "L2")].length ≤ 2 ∧
      List.Pairwise (fun x y => y.2.1 ≤ x.2.1)
        [("AAAAAAAAAB", mkRat 9 10, "L0"),
          ("BAAAAAAAAA", mkRat 9 10, "L2")]) :=
  ⟨c4_topk_ordering.2.2,
   c4_topk_ordering.1 exampleScorer exampleQuerySeq
     [("AAAAAAAAAB", mkRat 9 10, "L0"), ("BAAAAAAAAA", mkRat 9 10, "L2")]
     c4_topk_ordering.2.2⟩

theorem query_annotate_fail {H : ReverseHumanizer} {seq : String}
    {tM tV : ℚ} {hs : Option String} {mx : ℕ}
    (h : H.annotate seq = Option.none) :
    H.query seq tM tV hs mx =
      Except.error (PyErr.runtimeError (seq ++ " cannot be annotated")) := by
  unfold ReverseHumanizer.query
  rw [h]

theorem query_annotate_ok {H : ReverseHumanizer} {seq : String} {tM tV : ℚ}
    {hs : Option String} {mx : ℕ} {cur0 : List PyVal}
    (h : H.annotate seq = some cur0) :
    H.query seq tM tV hs mx =
      match resolve_sample_value H hs cur0 with
      | Except.error e => Except.error e
      | Except.ok sample => query_with_sample H cur0 cur0 sample tM tV mx := by
  unfold ReverseHumanizer.query
  rw [h]

theorem query_sample_ok {H : ReverseHumanizer} {seq : String} {tM tV : ℚ}
    {hs : Option String} {mx : ℕ} {cur0 : List PyVal} {sample : SampleVal}
    (h1 : H.annotate seq = some cur0)
    (h2 : resolve_sample_value H hs cur0 = Except.ok sample) :
    H.query seq tM tV hs mx = query_with_sample H cur0 cur0 sample tM tV mx := by
  rw [query_annotate_ok h1, h2]

theorem fallback_sample_ok {H : ReverseHumanizer} {cur : List PyVal}
    {sc : VGeneScorer} {a b : String × ℚ × String}
    (h1 : H.v_gene_scorer = some sc) (h2 : sc.query cur = Except.ok [a, b]) :
    fallback_sample H cur = Except.ok (SampleVal.triple a) := by
  unfold fallback_sample
  rw [h1]
  simp [h2]

/-- The annotated query of claim C1's failing run. -/
def qqqqSeq : List PyVal :=
  [PyVal.str "Q", PyVal.str "Q", PyVal.str "Q", PyVal.str "Q"]

/-- The reference population of claim C1's failing run: two samples, so the
scorer returns a two-element list of triples. -/
def fallbackScorer : VGeneScorer := ⟨3, ["AAAA", "ABAA"], ["HV1", "HV2"]⟩

/-- Claim C1's failing configuration: four framework-named positions, no
explicit human sample, a working scorer. -/
def fallbackHumanizer : ReverseHumanizer where
  model := fun _ => 1
  segmented := ["fwr1_1", "fwr1_2", "fwr1_3", "fwr1_4"]
  vGeneEnd := 3
  annotate := fun s => if s = "QQQQ" then some qqqqSeq else Option.none
  v_gene_scorer := some fallbackScorer
  skip_positions := []
  use_aa_similarity := false
  aaSim := fun _ _ => false

/-- C1 (code bug): with no explicit human sample, the scorer's top match is a
well-defined (sequence, score, label) triple list, but `query` unpacks the
list of triples as `human_sample, _ = ...`, so the chimeric-seed loop indexes
the first 3-tuple per position and raises IndexError at the fourth framework
position instead of overwriting the framework positions with the reference's
tokens. -/
theorem c1_fallback_uses_triple :
    fallbackScorer.query qqqqSeq =
      Except.ok [("AAAA", 0, "HV1"), ("ABAA", 0, "HV2")] ∧
    fallbackHumanizer.query "QQQQ" 1 0 Option.none 5 =
      Except.error PyErr.indexError := by
  have g0 : calc_score_go (listGet qqqqSeq) (strGet "AAAA")
      (List.range 4) 0 0 = Except.ok (0, 4) := rfl
  have g1 : calc_score_go (listGet qqqqSeq) (strGet "ABAA")
      (List.range 4) 0 0 = Except.ok (0, 4) := rfl
  have s0 : calc_score qqqqSeq "AAAA" 3 = Except.ok 0 := by
    unfold calc_score
    rw [calc_score_core_ok g0, if_neg (by decide)]
    norm_num
  have s1 : calc_score qqqqSeq "ABAA" 3 = Except.ok 0 := by
    unfold calc_score
    rw [calc_score_core_ok g1, if_neg (by decide)]
    norm_num
  have mm2 : map_scores qqqqSeq 3 [] = Except.ok [] := rfl
  have mm1 : map_scores qqqqSeq 3 ["ABAA"] = Except.ok [0] := by
    rw [map_scores, s1, mm2]
  have mm0 : map_scores qqqqSeq fallbackScorer.vGeneEnd
      fallbackScorer.human_samples = Except.ok [0, 0] := by
    show map_scores qqqqSeq 3 ["AAAA", "ABAA"] = _
    rw [map_scores, s0, mm1]
  have hsort : (List.insertionSort rankPairLe
      (([0, 0] : List ℚ).enum)).take 2 = [(0, 0), (1, 0)] := by decide
  have hquery : fallbackScorer.query qqqqSeq =
      Except.ok [("AAAA", 0, "HV1"), ("ABAA", 0, "HV2")] := by
    rw [vgene_query_ok mm0, hsort]
    rfl
  refine ⟨hquery, ?_⟩
  have hresolve : resolve_sample_value fallbackHumanizer Option.none qqqqSeq =
      Except.ok (SampleVal.triple ("AAAA", 0, "HV1")) := by
    unfold resolve_sample_value
    have hr : resolve_human_sample fallbackHumanizer Option.none =
        Option.none := rfl
    rw [hr]
    exact fallback_sample_ok rfl hquery
  rw [query_sample_ok
    (rfl : fallbackHumanizer.annotate "QQQQ" = some qqqqSeq) hresolve]
  unfold query_with_sample
  have hchim : build_chimeric_go (SampleVal.triple ("AAAA", 0, "HV1"))
      fallbackHumanizer.segmented.enum qqqqSeq =
      Except.error PyErr.indexError := rfl
  rw [hchim]

theorem listSet_ok {α : Type} {l : List α} {i : ℕ} {v : α} {out : List α} :
    listSet l i v = Except.ok out ↔ i < l.length ∧ out = l.set i v := by
  unfold listSet
  split
  · rename_i hlt
    simp [hlt, eq_comm]
  · rename_i hlt
    simp [hlt]

theorem test_single_change_spec {m : List PyVal → ℚ} {seq : List PyVal}
    {i : ℕ} {a : PyVal} {c : SequenceChange} {st : List PyVal}
    (h : test_single_change m seq i a = Except.ok (c, st)) :
    st = seq ∧
    ((∃ backup, seq[i]? = some backup ∧ backup = a ∧
        c = ⟨Option.none, backup, PyVal.none, -1⟩) ∨
      (∃ backup, seq[i]? = some backup ∧ backup ≠ a ∧
        c = ⟨some i, backup, a, m (seq.set i a)⟩)) := by
  refine ⟨test_single_change_state h, ?_⟩
  unfold test_single_change at h
  cases hg : listGet seq i with
  | error e => rw [hg] at h; simp at h
  | ok backup =>
    rw [hg] at h
    have hgg := (listGet_eq_ok seq i backup).mp hg
    by_cases hb : backup = a
    · simp only [if_pos hb] at h
      simp at h
      exact Or.inl ⟨backup, hgg, hb, h.1.symm⟩
    · simp only [if_neg hb] at h
      simp at h
      exact Or.inr ⟨backup, hgg, hb, h.1.symm⟩

theorem find_best_change_state {H : ReverseHumanizer} {cur orig : List PyVal}
    {b : SequenceChange} {st : List PyVal}
    (h : find_best_change H cur orig = Except.ok (b, st)) : st = cur :=
  find_best_go_state H.segmented.enum _ cur b st h

theorem loop_step_stop_state {H : ReverseHumanizer} {sample : SampleVal}
    {tM tV : ℚ} {orig : List PyVal} {it : ℕ} {cur : List PyVal}
    {trail : List IterationDetails} {s : List PyVal}
    {t : List IterationDetails}
    (h : loop_step H sample tM tV orig it cur trail =
      Except.ok (StepRes.stop s t)) :
    s = cur ∧ t = trail := by
  unfold loop_step at h
  split at h
  · simp at h
  · split at h
    · simp at h
    · rename_i pr best cur1 hfb
      have hc1 : cur1 = cur := find_best_change_state hfb
      subst hc1
      split at h
      · simp at h
        exact ⟨h.1.symm, h.2.symm⟩
      · rename_i pos hpos
        split at h
        · simp at h
        · rename_i prev hprev
          split at h
          · simp at h
          · rename_i cur2 hset
            split at h
            · simp at h
            · rename_i pv bv vg hmet
              split at h
              · simp at h
              · split at h
                · simp at h
                · rename_i cur3 hset3
                  simp at h
                  obtain ⟨hs3, ht3⟩ := h
                  refine ⟨?_, ht3.symm⟩
                  obtain ⟨hlt2, hc2⟩ := listSet_ok.mp hset
                  obtain ⟨hlt3, hc3⟩ := listSet_ok.mp hset3
                  rw [← hs3, hc3, hc2, List.set_set]
                  exact set_self_of_getElem? cur1 pos prev
                    ((listGet_eq_ok cur1 pos prev).mp hprev)

theorem loop_step_cont_spec {H : ReverseHumanizer} {sample : SampleVal}
    {tM tV : ℚ} {orig : List PyVal} {it : ℕ} {cur : List PyVal}
    {trail : List IterationDetails} {s : List PyVal}
    {t : List IterationDetails}
    (h : loop_step H sample tM tV orig it cur trail =
      Except.ok (StepRes.cont s t)) :
    ∃ best pos prev bv vg,
      find_best_change H cur orig = Except.ok (best, cur) ∧
      best.position = some pos ∧
      cur[pos]? = some prev ∧
      s = cur.set pos best.aa ∧
      calcMetrics H sample s = Except.ok (bv, vg) ∧
      tM ≤ bv ∧ is_v_gene_score_less (some tV) vg = true ∧
      t = trail ++ [⟨it, bv, vg, some best⟩] := by
  unfold loop_step at h
  split at h
  · simp at h
  · split at h
    · simp at h
    · rename_i pr best cur1 hfb
      have hc1 : cur1 = cur := find_best_change_state hfb
      rw [hc1] at hfb h
      split at h
      · simp at h
      · rename_i pos hpos
        split at h
        · simp at h
        · rename_i prev hprev
          split at h
          · simp at h
          · rename_i cur2 hset
            split at h
            · simp at h
            · rename_i pv bv vg hmet
              split at h
              · rename_i hgate
                simp at h
                obtain ⟨hs2, ht2⟩ := h
                obtain ⟨hlt2, hc2⟩ := listSet_ok.mp hset
                refine ⟨best, pos, prev, bv, vg, hfb, hpos,
                  (listGet_eq_ok cur pos prev).mp hprev, ?_, ?_, hgate.1,
                  hgate.2, ht2.symm⟩
                · rw [← hs2, hc2]
                · rw [← hs2, hmet]
              · split at h
                · simp at h
                · simp at h

theorem query_loop_gate {H : ReverseHumanizer} {sample : SampleVal}
    {tM tV : ℚ} {orig : List PyVal} :
    ∀ (fuel it : ℕ) (cur : List PyVal) (trail : List IterationDetails)
      (s : List PyVal) (t : List IterationDetails),
      query_loop H sample tM tV orig fuel it cur trail = Except.ok (s, t) →
      1 ≤ it →
      (∀ r ∈ trail, 1 ≤ r.iteration →
        tM ≤ r.modelMetric ∧
          is_v_gene_score_less (some tV) r.vGeneScore = true) →
      ∀ r ∈ t, 1 ≤ r.iteration →
        tM ≤ r.modelMetric ∧ is_v_gene_score_less (some tV) r.vGeneScore = true
  | 0, it, cur, trail, s, t, h, hit, hinv => by
    simp [query_loop] at h
    exact h.2 ▸ hinv
  | fuel + 1, it, cur, trail, s, t, h, hit, hinv => by
    rw [query_loop] at h
    split at h
    · simp at h
    · rename_i s' t' hstep
      simp at h
      have hss := loop_step_stop_state hstep
      rw [← h.2, hss.2]
      exact hinv
    · rename_i s' t' hstep
      obtain ⟨best, pos, prev, bv, vg, _, _, _, _, _, hbv, hvg, ht'⟩ :=
        loop_step_cont_spec hstep
      refine query_loop_gate fuel (it + 1) s' t' s t h (by omega) ?_
      rw [ht']
      intro r hr hr1
      rcases List.mem_append.mp hr with hr | hr
      · exact hinv r hr hr1
      · simp at hr
        rw [hr]
        exact ⟨hbv, hvg⟩

theorem query_loop_len {H : ReverseHumanizer} {sample : SampleVal}
    {tM tV : ℚ} {orig : List PyVal} :
    ∀ (fuel it : ℕ) (cur : List PyVal) (trail : List IterationDetails)
      (s : List PyVal) (t : List IterationDetails),
      query_loop H sample tM tV orig fuel it cur trail = Except.ok (s, t) →
      t.length ≤ trail.length + fuel
  | 0, it, cur, trail, s, t, h => by
    simp [query_loop] at h
    rw [← h.2]
    omega
  | fuel + 1, it, cur, trail, s, t, h => by
    rw [query_loop] at h
    split at h
    · simp at h
    · rename_i s' t' hstep
      simp at h
      have hss := loop_step_stop_state hstep
      rw [← h.2, hss.2]
      omega
    · rename_i s' t' hstep
      obtain ⟨best, pos, prev, bv, vg, _, _, _, _, _, _, _, ht'⟩ :=
        loop_step_cont_spec hstep
      have := query_loop_len fuel (it + 1) s' t' s t h
      rw [ht'] at this
      simp at this
      omega

theorem query_ok_destruct {H : ReverseHumanizer} {seq : String} {tM tV : ℚ}
    {hs : Option String} {mx : ℕ} {out : String × List IterationDetails}
    (h : H.query seq tM tV hs mx = Except.ok out) :
    ∃ cur0 sample current v0 vg0 final,
      H.annotate seq = some cur0 ∧
      resolve_sample_value H hs cur0 = Except.ok sample ∧
      build_chimeric_go sample H.segmented.enum cur0 = Except.ok current ∧
      calcMetrics H sample current = Except.ok (v0, vg0) ∧
      query_loop H sample tM tV cur0 mx 1 current
        [⟨0, v0, vg0, Option.none⟩] = Except.ok (final, out.2) ∧
      out.1 = seq_to_str final false := by
  unfold ReverseHumanizer.query at h
  split at h
  · simp at h
  · rename_i cur0 hann
    split at h
    · simp at h
    · rename_i sample hres
      unfold query_with_sample at h
      split at h
      · simp at h
      · rename_i current hchim
        split at h
        · simp at h
        · rename_i pr v0 vg0 hmet
          split at h
          · simp at h
          · rename_i pr2 final iterations hloop
            cases h
            exact ⟨cur0, sample, current, v0, vg0, final, hann, hres, hchim,
              hmet, hloop, rfl⟩

/-- C2: every accepted round's record satisfies the joint objective gate (the
model score reaches the target and the V-gene score passes
`is_v_gene_score_less` against the target), and whenever a round terminates
the greedy loop (best candidate missing, or tentatively applied candidate
failing the gate and being reverted) the sequence is back in its
pre-candidate state and no record has been appended. -/
theorem c2_joint_objective_gate :
    (∀ (H : ReverseHumanizer) (seq : String) (tM tV : ℚ)
      (hs : Option String) (mx : ℕ) (s : String)
      (trail : List IterationDetails),
      H.query seq tM tV hs mx = Except.ok (s, trail) →
      ∀ r ∈ trail, 1 ≤ r.iteration →
        tM ≤ r.modelMetric ∧
          is_v_gene_score_less (some tV) r.vGeneScore = true) ∧
    (∀ (H : ReverseHumanizer) (sample : SampleVal) (tM tV : ℚ)
      (orig : List PyVal) (it : ℕ) (cur : List PyVal)
      (trail : List IterationDetails) (s : List PyVal)
      (t : List IterationDetails),
      loop_step H sample tM tV orig it cur trail =
        Except.ok (StepRes.stop s t) →
      s = cur ∧ t = trail) := by
  constructor
  · intro H seq tM tV hs mx s trail h
    obtain ⟨cur0, sample, current, v0, vg0, final, hann, hres, hchim, hmet,
      hloop, hout⟩ := query_ok_destruct h
    refine query_loop_gate mx 1 current [⟨0, v0, vg0, Option.none⟩] final
      trail hloop (by omega) ?_
    intro r hr hr1
    simp at hr
    rw [hr] at hr1
    simp at hr1
  · intro H sample tM tV orig it cur trail s t h
    exact loop_step_stop_state h

/-- Number of positions where the working sequence still differs from the
original query (claim C3's measure). -/
def diff_count (cur orig : List PyVal) : ℕ :=
  ((cur.zip orig).filter (fun p => decide (p.1 ≠ p.2))).length

theorem diff_count_cons (c o : PyVal) (cs os : List PyVal) :
    diff_count (c :: cs) (o :: os) =
      diff_count cs os + (if c = o then 0 else 1) := by
  unfold diff_count
  by_cases h : c = o <;> simp [List.filter_cons, h]

theorem diff_count_set :
    ∀ (cur orig : List PyVal) (pos : ℕ) (v w : PyVal),
      cur[pos]? = some v → orig[pos]? = some w → v ≠ w →
      diff_count (cur.set pos w) orig + 1 = diff_count cur orig
  | [], orig, pos, v, w, hc, ho, hvw => by simp at hc
  | c :: cs, [], pos, v, w, hc, ho, hvw => by simp at ho
  | c :: cs, o :: os, 0, v, w, hc, ho, hvw => by
    simp at hc ho
    subst hc
    subst ho
    rw [List.set_cons_zero, diff_count_cons, diff_count_cons]
    simp [hvw]
  | c :: cs, o :: os, pos + 1, v, w, hc, ho, hvw => by
    simp at hc ho
    have ih := diff_count_set cs os pos v w hc ho hvw
    rw [List.set_cons_succ, diff_count_cons, diff_count_cons]
    by_cases hco : c = o <;> simp [hco] <;> omega

theorem icl_true_of_lt {aaSim : SequenceChange → SequenceChange → Bool}
    {useAa : Bool} {l r : SequenceChange} (h : l.value < r.value) :
    is_change_less aaSim useAa l r = true := by
  unfold is_change_less
  rw [if_pos h]

theorem icl_false_of_gt {aaSim : SequenceChange → SequenceChange → Bool}
    {useAa : Bool} {l r : SequenceChange} (h : r.value < l.value) :
    is_change_less aaSim useAa l r = false := by
  unfold is_change_less
  rw [if_neg (not_lt.mpr (le_of_lt h)), if_pos h]

theorem null_cand_contra {cur orig : List PyVal} {i : ℕ}
    {backup new_aa : PyVal} (hbk : cur[i]? = some backup)
    (hg : orig[i]? = some new_aa) (hba : backup = new_aa)
    (hgood : ∃ v w, cur[i]? = some v ∧ orig[i]? = some w ∧ v ≠ w) : False := by
  obtain ⟨v, w, hv, hw, hvw⟩ := hgood
  rw [hbk] at hv
  rw [hg] at hw
  exact hvw (by rw [← Option.some.inj hv, ← Option.some.inj hw, hba])

theorem find_best_go_good {H : ReverseHumanizer} {orig : List PyVal} :
    ∀ (ps : List (ℕ × String)) (best : SequenceChange) (cur : List PyVal)
      (b : SequenceChange) (st : List PyVal),
      find_best_go H orig ps best cur = Except.ok (b, st) →
      (∀ q, best.position = some q →
        ∃ v w, cur[q]? = some v ∧ orig[q]? = some w ∧ v ≠ w ∧ best.aa = w) →
      ∀ q, b.position = some q →
        ∃ v w, cur[q]? = some v ∧ orig[q]? = some w ∧ v ≠ w ∧ b.aa = w
  | [], best, cur, b, st, h, hbest => by
    simp [find_best_go] at h
    exact h.1 ▸ hbest
  | p :: rest, best, cur, b, st, h, hbest => by
    rw [find_best_go] at h
    split at h
    · exact find_best_go_good rest best cur b st h hbest
    · split at h
      · simp at h
      · rename_i new_aa hg
        split at h
        · simp at h
        · rename_i candidate st1 ht
          obtain ⟨hst1, hspec⟩ := test_single_change_spec ht
          rw [hst1] at h
          split at h
          · refine find_best_go_good rest candidate cur b st h ?_
            intro q hq
            rcases hspec with ⟨backup, hbk, hba, hcand⟩ |
              ⟨backup, hbk, hba, hcand⟩
            · rw [hcand] at hq
              simp at hq
            · rw [hcand] at hq
              simp at hq
              subst hq
              have ho := (listGet_eq_ok orig p.1 new_aa).mp hg
              exact ⟨backup, new_aa, hbk, ho, hba, by rw [hcand]⟩
          · exact find_best_go_good rest best cur b st h hbest

theorem find_best_change_good {H : ReverseHumanizer} {cur orig : List PyVal}
    {b : SequenceChange} {st : List PyVal} {q : ℕ}
    (h : find_best_change H cur orig = Except.ok (b, st))
    (hq : b.position = some q) :
    ∃ v w, cur[q]? = some v ∧ orig[q]? = some w ∧ v ≠ w ∧ b.aa = w :=
  find_best_go_good H.segmented.enum _ cur b st h
    (by intro q' hq'; simp at hq') q hq

theorem find_best_go_defined {H : ReverseHumanizer} {orig : List PyVal}
    (hm : ∀ l, 0 ≤ H.model l) :
    ∀ (ps : List (ℕ × String)) (best : SequenceChange) (cur : List PyVal)
      (b : SequenceChange) (st : List PyVal),
      find_best_go H orig ps best cur = Except.ok (b, st) →
      ((best.position.isSome = true ∧ 0 ≤ best.value) ∨
        (best.position = Option.none ∧ best.value = -1)) →
      ((best.position.isSome = true ∧ 0 ≤ best.value) ∨
        ∃ p ∈ ps, p.2 ∉ H.skip_positions ∧
          ∃ v w, cur[p.1]? = some v ∧ orig[p.1]? = some w ∧ v ≠ w) →
      b.position.isSome = true
  | [], best, cur, b, st, h, hQ, hgoal => by
    simp [find_best_go] at h
    rcases hgoal with ⟨hdef, _⟩ | ⟨p, hp, _⟩
    · exact h.1 ▸ hdef
    · simp at hp
  | p :: rest, best, cur, b, st, h, hQ, hgoal => by
    rw [find_best_go] at h
    split at h
    · rename_i hskip
      refine find_best_go_defined hm rest best cur b st h hQ ?_
      rcases hgoal with hdef | ⟨p', hp', hskip', hgood⟩
      · exact Or.inl hdef
      · rcases List.mem_cons.mp hp' with rfl | hmem
        · exact absurd hskip hskip'
        · exact Or.inr ⟨p', hmem, hskip', hgood⟩
    · rename_i hskip
      split at h
      · simp at h
      · rename_i new_aa hg
        have hgo := (listGet_eq_ok orig p.1 new_aa).mp hg
        split at h
        · simp at h
        · rename_i candidate st1 ht
          obtain ⟨hst1, hspec⟩ := test_single_change_spec ht
          rw [hst1] at h
          split at h
          · rename_i hless
            rcases hspec with ⟨backup, hbk, hba, hcand⟩ |
              ⟨backup, hbk, hba, hcand⟩
            · have hc_pos : candidate.position = Option.none := by rw [hcand]
              have hc_val : candidate.value = -1 := by rw [hcand]
              refine find_best_go_defined hm rest candidate cur b st h
                (Or.inr ⟨hc_pos, hc_val⟩) ?_
              rcases hgoal with ⟨hdef, hge⟩ | ⟨p', hp', hskip', hgood⟩
              · exfalso
                have hfalse : is_change_less H.aaSim H.use_aa_similarity
                    best candidate = false := by
                  apply icl_false_of_gt
                  rw [hc_val]
                  linarith
                rw [hfalse] at hless
                simp at hless
              · rcases List.mem_cons.mp hp' with rfl | hmem
                · exact absurd (null_cand_contra hbk hgo hba hgood) id
                · exact Or.inr ⟨p', hmem, hskip', hgood⟩
            · have hge : 0 ≤ candidate.value := by
                rw [hcand]
                exact hm _
              have hdef : candidate.position.isSome = true := by
                rw [hcand]
                rfl
              exact find_best_go_defined hm rest candidate cur b st h
                (Or.inl ⟨hdef, hge⟩) (Or.inl ⟨hdef, hge⟩)
          · rename_i hless
            refine find_best_go_defined hm rest best cur b st h hQ ?_
            rcases hgoal with hdef | ⟨p', hp', hskip', hgood⟩
            · exact Or.inl hdef
            · rcases List.mem_cons.mp hp' with rfl | hmem
              · rcases hspec with ⟨backup, hbk, hba, hcand⟩ |
                  ⟨backup, hbk, hba, hcand⟩
                · exact absurd (null_cand_contra hbk hgo hba hgood) id
                · rcases hQ with hQl | ⟨hQn, hQv⟩
                  · exact Or.inl hQl
                  · exfalso
                    have htrue : is_change_less H.aaSim H.use_aa_similarity
                        best candidate = true := by
                      apply icl_true_of_lt
                      rw [hQv, hcand]
                      show (-1 : ℚ) < H.model (cur.set p'.1 new_aa)
                      have := hm (cur.set p'.1 new_aa)
                      linarith
                    exact hless htrue
              · exact Or.inr ⟨p', hmem, hskip', hgood⟩

/-- C3: a candidate at a position where the current sequence already equals
the original is the null change (position none, score -1); a selected best
change always names a position that still differs from the original and
reverts it to the original's token; when some non-skipped position still
differs (and model scores are nonnegative, as probabilities are), the best
change is never the null change; and an accepted round sets exactly that one
position back to the original, shrinking the differing-position count by
exactly one. -/
theorem c3_anti_cycling :
    (∀ (m : List PyVal → ℚ) (seq : List PyVal) (i : ℕ) (aa : PyVal),
      listGet seq i = Except.ok aa →
      test_single_change m seq i aa =
        Except.ok (⟨Option.none, aa, PyVal.none, -1⟩, seq)) ∧
    (∀ (H : ReverseHumanizer) (cur orig : List PyVal) (b : SequenceChange)
      (st : List PyVal) (q : ℕ),
      find_best_change H cur orig = Except.ok (b, st) →
      b.position = some q →
      ∃ v w, cur[q]? = some v ∧ orig[q]? = some w ∧ v ≠ w ∧ b.aa = w) ∧
    (∀ (H : ReverseHumanizer) (cur orig : List PyVal) (b : SequenceChange)
      (st : List PyVal) (i : ℕ) (name : String),
      (∀ l, 0 ≤ H.model l) →
      find_best_change H cur orig = Except.ok (b, st) →
      (i, name) ∈ H.segmented.enum → name ∉ H.skip_positions →
      (∃ v w, cur[i]? = some v ∧ orig[i]? = some w ∧ v ≠ w) →
      b.position.isSome = true) ∧
    (∀ (H : ReverseHumanizer) (sample : SampleVal) (tM tV : ℚ)
      (orig : List PyVal) (it : ℕ) (cur : List PyVal)
      (trail : List IterationDetails) (s : List PyVal)
      (t : List IterationDetails),
      loop_step H sample tM tV orig it cur trail =
        Except.ok (StepRes.cont s t) →
      ∃ pos v w, cur[pos]? = some v ∧ orig[pos]? = some w ∧ v ≠ w ∧
        s = cur.set pos w ∧ diff_count s orig + 1 = diff_count cur orig) := by
  refine ⟨?_, ?_, ?_, ?_⟩
  · intro m seq i aa h
    unfold test_single_change
    rw [h]
    simp
  · intro H cur orig b st q h hq
    exact find_best_change_good h hq
  · intro H cur orig b st i name hm h hmem hskip hgood
    unfold find_best_change at h
    exact find_best_go_defined hm H.segmented.enum _ cur b st h
      (Or.inr ⟨rfl, rfl⟩) (Or.inr ⟨(i, name), hmem, hskip, hgood⟩)
  · intro H sample tM tV orig it cur trail s t h
    obtain ⟨best, pos, prev, bv, vg, hfb, hpos, hprev, hs, _, _, _, _⟩ :=
      loop_step_cont_spec h
    obtain ⟨v, w, hv, hw, hvw, haa⟩ := find_best_change_good hfb hpos
    refine ⟨pos, v, w, hv, hw, hvw, by rw [hs, haa], ?_⟩
    rw [hs, haa]
    exact diff_count_set cur orig pos v w hv hw hvw

/-- C7: the trail never exceeds the iteration budget plus the seed record,
and with a zero budget the result is exactly the chimeric seed (flattened)
with the single iteration-0 baseline record. -/
theorem c7_iteration_budget :
    (∀ (H : ReverseHumanizer) (seq : String) (tM tV : ℚ)
      (hs : Option String) (mx : ℕ) (s : String)
      (trail : List IterationDetails),
      H.query seq tM tV hs mx = Except.ok (s, trail) →
      trail.length ≤ mx + 1) ∧
    (∀ (H : ReverseHumanizer) (seq : String) (tM tV : ℚ)
      (hs : Option String) (cur0 la chim : List PyVal) (v0 : ℚ)
      (vg0 : Option ℚ),
      H.annotate seq = some cur0 →
      resolve_human_sample H hs = some la →
      build_chimeric_go (SampleVal.ann la) H.segmented.enum cur0 =
        Except.ok chim →
      calcMetrics H (SampleVal.ann la) chim = Except.ok (v0, vg0) →
      H.query seq tM tV hs 0 =
        Except.ok (seq_to_str chim false, [⟨0, v0, vg0, Option.none⟩])) := by
  constructor
  · intro H seq tM tV hs mx s trail h
    obtain ⟨cur0, sample, current, v0, vg0, final, _, _, _, _, hloop, _⟩ :=
      query_ok_destruct h
    have hlen := query_loop_len mx 1 current [⟨0, v0, vg0, Option.none⟩]
      final trail hloop
    simp at hlen
    omega
  · intro H seq tM tV hs cur0 la chim v0 vg0 hann hres hchim hmet
    have hres' : resolve_sample_value H hs cur0 =
        Except.ok (SampleVal.ann la) := by
      unfold resolve_sample_value
      rw [hres]
    rw [query_sample_ok hann hres']
    simp only [query_with_sample, hchim, hmet, query_loop]

/-- C10: a supplied human sample that is non-empty but not annotatable is
silently discarded: the query behaves exactly as if no sample had been
supplied, falling back to the V-gene scorer. -/
theorem c10_unannotatable_sample_fallback :
    ∀ (H : ReverseHumanizer) (seq : String) (tM tV : ℚ) (mx : ℕ)
      (hs : String),
      hs ≠ "" → H.annotate hs = Option.none →
      H.query seq tM tV (some hs) mx = H.query seq tM tV Option.none mx := by
  intro H seq tM tV mx hs hne hann
  have hres : resolve_human_sample H (some hs) =
      resolve_human_sample H Option.none := by
    simp [resolve_human_sample, hne, hann]
  cases hA : H.annotate seq with
  | none => rw [query_annotate_fail hA, query_annotate_fail hA]
  | some cur0 =>
    rw [query_annotate_ok hA, query_annotate_ok hA]
    have hsv : resolve_sample_value H (some hs) cur0 =
        resolve_sample_value H Option.none cur0 := by
      unfold resolve_sample_value
      rw [hres]
    rw [hsv]

theorem mem_enum_fst_lt {α : Type} {l : List α} {p : ℕ × α}
    (h : p ∈ l.enum) : p.1 < l.length := by
  obtain ⟨i, a⟩ := p
  have hh := List.mk_mem_enum_iff_getElem?.mp h
  exact (List.getElem?_eq_some.mp hh).1

theorem build_chimeric_ann_ok {la : List PyVal} :
    ∀ (ps : List (ℕ × String)) (cur : List PyVal),
      (∀ p ∈ ps, p.1 < cur.length ∧ p.1 < la.length) →
      ∃ out, build_chimeric_go (SampleVal.ann la) ps cur = Except.ok out ∧
        out.length = cur.length
  | [], cur, _ => ⟨cur, rfl, rfl⟩
  | p :: rest, cur, hb => by
    obtain ⟨h1, h2⟩ := hb p (by simp)
    have hrest : ∀ q ∈ rest, q.1 < cur.length ∧ q.1 < la.length :=
      fun q hq => hb q (by simp [hq])
    by_cases hf : startsWithFwr p.2 = true
    · obtain ⟨v, hv⟩ : ∃ v, la[p.1]? = some v :=
        ⟨_, List.getElem?_eq_getElem h2⟩
      have hsg : sampleGetItem (SampleVal.ann la) p.1 = Except.ok v :=
        (listGet_eq_ok la p.1 v).mpr hv
      have hset : listSet cur p.1 v = Except.ok (cur.set p.1 v) :=
        listSet_ok.mpr ⟨h1, rfl⟩
      obtain ⟨out, hout, hlen⟩ := build_chimeric_ann_ok rest (cur.set p.1 v)
        (fun q hq => by
          obtain ⟨hq1, hq2⟩ := hrest q hq
          exact ⟨by simpa using hq1, hq2⟩)
      refine ⟨out, ?_, by rw [hlen]; simp⟩
      rw [build_chimeric_go, if_pos hf]
      simp only [hsg, hset]
      exact hout
    · obtain ⟨out, hout, hlen⟩ := build_chimeric_ann_ok rest cur hrest
      refine ⟨out, ?_, hlen⟩
      rw [build_chimeric_go, if_neg hf]
      exact hout

theorem calc_score_go_all_ok {get1 get2 : ℕ → Except PyErr PyVal} :
    ∀ (idxs : List ℕ) (s t : ℕ),
      (∀ i ∈ idxs, (∃ a, get1 i = Except.ok a) ∧
        (∃ b, get2 i = Except.ok b)) →
      ∃ sm tt, calc_score_go get1 get2 idxs s t = Except.ok (sm, tt) ∧
        t ≤ tt ∧
        (∀ i0 ∈ idxs, ∀ b0, get2 i0 = Except.ok b0 →
          b0 ≠ PyVal.str "X" → t < tt)
  | [], s, t, _ => ⟨s, t, rfl, le_refl t, by simp⟩
  | i :: rest, s, t, hok => by
    obtain ⟨⟨a, ha⟩, ⟨b, hb⟩⟩ := hok i (by simp)
    have hrest : ∀ j ∈ rest, (∃ a, get1 j = Except.ok a) ∧
        (∃ b, get2 j = Except.ok b) := fun j hj => hok j (by simp [hj])
    by_cases hcond : a ≠ PyVal.str "X" ∨ b ≠ PyVal.str "X"
    · obtain ⟨sm, tt, hgo, hle, _⟩ :=
        calc_score_go_all_ok rest (if a = b then s + 1 else s) (t + 1) hrest
      refine ⟨sm, tt, ?_, by omega, ?_⟩
      · rw [calc_score_go_cons_ok ha hb, if_pos hcond]
        exact hgo
      · intro i0 _ b0 _ _
        omega
    · obtain ⟨sm, tt, hgo, hle, hpos⟩ := calc_score_go_all_ok rest s t hrest
      refine ⟨sm, tt, ?_, hle, ?_⟩
      · rw [calc_score_go_cons_ok ha hb, if_neg hcond]
        exact hgo
      · intro i0 hi0 b0 hb0 hbx
        rcases List.mem_cons.mp hi0 with rfl | hmem
        · rw [hb] at hb0
          push_neg at hcond
          exact absurd (by rw [← Except.ok.inj hb0]; exact hcond.2) hbx
        · exact hpos i0 hmem b0 hb0 hbx

theorem calcMetrics_exists {H : ReverseHumanizer} {sample : SampleVal}
    {cur : List PyVal}
    (hok : ∀ i ∈ List.range (H.vGeneEnd + 1),
      (∃ a, listGet cur i = Except.ok a) ∧
      (∃ b, sampleGetItem sample i = Except.ok b))
    (hinf : ∃ i0 ∈ List.range (H.vGeneEnd + 1),
      ∃ b0, sampleGetItem sample i0 = Except.ok b0 ∧ b0 ≠ PyVal.str "X") :
    ∃ v vg, calcMetrics H sample cur = Except.ok (v, vg) := by
  obtain ⟨sm, tt, hgo, _, hpos⟩ := calc_score_go_all_ok _ 0 0 hok
  obtain ⟨i0, hi0, b0, hb0, hbx⟩ := hinf
  have htt : tt ≠ 0 := by
    have := hpos i0 hi0 b0 hb0 hbx
    omega
  refine ⟨H.model cur, some ((sm : ℚ) / (tt : ℚ)), ?_⟩
  unfold calcMetrics
  rw [calc_score_core_ok hgo, if_neg htt]

theorem test_single_change_exists (m : List PyVal → ℚ) (seq : List PyVal)
    (i : ℕ) (h : i < seq.length) (a : PyVal) :
    ∃ c, test_single_change m seq i a = Except.ok (c, seq) := by
  obtain ⟨v, hv⟩ : ∃ v, seq[i]? = some v := ⟨_, List.getElem?_eq_getElem h⟩
  have hget : listGet seq i = Except.ok v := (listGet_eq_ok seq i v).mpr hv
  unfold test_single_change
  rw [hget]
  by_cases hb : v = a
  · simp only [if_pos hb]
    exact ⟨⟨Option.none, v, PyVal.none, -1⟩, rfl⟩
  · simp only [if_neg hb]
    refine ⟨⟨some i, v, a, m (seq.set i a)⟩, ?_⟩
    have hss : (seq.set i a).set i v = seq := by
      rw [List.set_set]
      exact set_self_of_getElem? seq i v hv
    rw [hss]

theorem find_best_go_exists {H : ReverseHumanizer} {orig : List PyVal} :
    ∀ (ps : List (ℕ × String)) (best : SequenceChange) (cur : List PyVal),
      (∀ p ∈ ps, p.1 < cur.length ∧ p.1 < orig.length) →
      ∃ b, find_best_go H orig ps best cur = Except.ok (b, cur)
  | [], best, cur, _ => ⟨best, rfl⟩
  | p :: rest, best, cur, hb => by
    obtain ⟨h1, h2⟩ := hb p (by simp)
    have hrest : ∀ q ∈ rest, q.1 < cur.length ∧ q.1 < orig.length :=
      fun q hq => hb q (by simp [hq])
    by_cases hskip : p.2 ∈ H.skip_positions
    · obtain ⟨b, hbst⟩ := find_best_go_exists rest best cur hrest
      refine ⟨b, ?_⟩
      rw [find_best_go, if_pos hskip]
      exact hbst
    · obtain ⟨w, hw⟩ : ∃ w, orig[p.1]? = some w :=
        ⟨_, List.getElem?_eq_getElem h2⟩
      have hgw : listGet orig p.1 = Except.ok w :=
        (listGet_eq_ok orig p.1 w).mpr hw
      obtain ⟨c, hc⟩ := test_single_change_exists H.model cur p.1 h1 w
      by_cases hless : is_change_less H.aaSim H.use_aa_similarity best c = true
      · obtain ⟨b, hbst⟩ := find_best_go_exists rest c cur hrest
        refine ⟨b, ?_⟩
        rw [find_best_go, if_neg hskip]
        simp only [hgw, hc, if_pos hless]
        exact hbst
      · obtain ⟨b, hbst⟩ := find_best_go_exists rest best cur hrest
        refine ⟨b, ?_⟩
        rw [find_best_go, if_neg hskip]
        simp only [hgw, hc, if_neg hless]
        exact hbst

theorem loop_step_exists {H : ReverseHumanizer} {sample : SampleVal}
    {tM tV : ℚ} {orig : List PyVal} {it : ℕ} {cur : List PyVal}
    {trail : List IterationDetails}
    (hlen : orig.length = cur.length)
    (hseg : ∀ p ∈ H.segmented.enum, p.1 < cur.length)
    (hmet : ∀ (c : List PyVal), c.length = cur.length →
      ∃ v vg, calcMetrics H sample c = Except.ok (v, vg)) :
    ∃ r, loop_step H sample tM tV orig it cur trail = Except.ok r ∧
      (∀ s t, r = StepRes.stop s t → s.length = cur.length) ∧
      (∀ s t, r = StepRes.cont s t → s.length = cur.length) := by
  obtain ⟨v1, vg1, hm1⟩ := hmet cur rfl
  obtain ⟨b, hfb⟩ := find_best_go_exists H.segmented.enum
    ⟨Option.none, PyVal.none, PyVal.none, -1⟩ cur
    (fun p hp => ⟨hseg p hp, by rw [hlen]; exact hseg p hp⟩)
  have hfb' : find_best_change H cur orig = Except.ok (b, cur) := hfb
  cases hbp : b.position with
  | none =>
    refine ⟨StepRes.stop cur trail, ?_, ?_, ?_⟩
    · simp only [loop_step, hm1, hfb', hbp]
    · intro s t hst
      cases hst
      rfl
    · intro s t hst
      cases hst
  | some pos =>
    have hposlt : pos < cur.length := by
      obtain ⟨v, w, hv, _, _, _⟩ := find_best_change_good hfb' hbp
      exact (List.getElem?_eq_some.mp hv).1
    obtain ⟨prev, hprev⟩ : ∃ p, cur[pos]? = some p :=
      ⟨_, List.getElem?_eq_getElem hposlt⟩
    have hget : listGet cur pos = Except.ok prev :=
      (listGet_eq_ok cur pos prev).mpr hprev
    have hset : listSet cur pos b.aa = Except.ok (cur.set pos b.aa) :=
      listSet_ok.mpr ⟨hposlt, rfl⟩
    obtain ⟨v2, vg2, hm2⟩ := hmet (cur.set pos b.aa) (by simp)
    by_cases hgate : tM ≤ v2 ∧ is_v_gene_score_less (some tV) vg2 = true
    · refine ⟨StepRes.cont (cur.set pos b.aa)
        (trail ++ [⟨it, v2, vg2, some b⟩]), ?_, ?_, ?_⟩
      · simp only [loop_step, hm1, hfb', hbp, hget, hset, hm2, if_pos hgate]
      · intro s t hst
        cases hst
      · intro s t hst
        cases hst
        simp
    · have hset2 : listSet (cur.set pos b.aa) pos prev =
          Except.ok ((cur.set pos b.aa).set pos prev) :=
        listSet_ok.mpr ⟨by simpa using hposlt, rfl⟩
      refine ⟨StepRes.stop ((cur.set pos b.aa).set pos prev) trail,
        ?_, ?_, ?_⟩
      · simp only [loop_step, hm1, hfb', hbp, hget, hset, hm2,
          if_neg hgate, hset2]
      · intro s t hst
        cases hst
        simp
      · intro s t hst
        cases hst

theorem query_loop_exists {H : ReverseHumanizer} {sample : SampleVal}
    {tM tV : ℚ} {orig : List PyVal} :
    ∀ (fuel it : ℕ) (cur : List PyVal) (trail : List IterationDetails),
      orig.length = cur.length →
      (∀ p ∈ H.segmented.enum, p.1 < cur.length) →
      (∀ (c : List PyVal), c.length = cur.length →
        ∃ v vg, calcMetrics H sample c = Except.ok (v, vg)) →
      ∃ s t, query_loop H sample tM tV orig fuel it cur trail =
        Except.ok (s, t)
  | 0, it, cur, trail, _, _, _ => ⟨cur, trail, rfl⟩
  | fuel + 1, it, cur, trail, hlen, hseg, hmet => by
    obtain ⟨r, hr, hstopLen, hcontLen⟩ := loop_step_exists hlen hseg hmet
    cases r with
    | stop s t =>
      refine ⟨s, t, ?_⟩
      rw [query_loop, hr]
    | cont s t =>
      have hslen : s.length = cur.length := hcontLen s t rfl
      obtain ⟨s', t', hloop⟩ := query_loop_exists fuel (it + 1) s t
        (by rw [hlen, hslen]) (fun p hp => by rw [hslen]; exact hseg p hp)
        (fun c hc => hmet c (by rw [hc, hslen]))
      refine ⟨s', t', ?_⟩
      rw [query_loop, hr]
      exact hloop

/-- C9: a raw sequence that cannot be annotated makes `query` raise (no
result, no trail), while a well-formed run (annotation succeeds, the resolved
human sample is annotated with the schema's length, and the sample has at
least one informative position so similarity scores are defined) always
returns a normal (sequence, trail) result whatever terminal state the search
reaches. -/
theorem c9_error_handling :
    (∀ (H : ReverseHumanizer) (seq : String) (tM tV : ℚ)
      (hs : Option String) (mx : ℕ),
      H.annotate seq = Option.none →
      H.query seq tM tV hs mx =
        Except.error (PyErr.runtimeError (seq ++ " cannot be annotated"))) ∧
    (∀ (H : ReverseHumanizer) (seq : String) (tM tV : ℚ)
      (hs : Option String) (mx : ℕ) (cur0 la : List PyVal),
      H.annotate seq = some cur0 →
      resolve_human_sample H hs = some la →
      cur0.length = H.segmented.length →
      la.length = H.segmented.length →
      H.vGeneEnd < H.segmented.length →
      (∃ i, i ≤ H.vGeneEnd ∧ ∃ v, la[i]? = some v ∧ v ≠ PyVal.str "X") →
      ∃ s trail, H.query seq tM tV hs mx = Except.ok (s, trail)) := by
  constructor
  · intro H seq tM tV hs mx h
    exact query_annotate_fail h
  · intro H seq tM tV hs mx cur0 la hann hres hc0 hla hvg hinf
    have hres' : resolve_sample_value H hs cur0 =
        Except.ok (SampleVal.ann la) := by
      unfold resolve_sample_value
      rw [hres]
    have hseg : ∀ p ∈ H.segmented.enum, p.1 < H.segmented.length :=
      fun p hp => mem_enum_fst_lt hp
    obtain ⟨chim, hchim, hchimlen⟩ := build_chimeric_ann_ok
      H.segmented.enum cur0
      (fun p hp => ⟨by rw [hc0]; exact hseg p hp,
        by rw [hla]; exact hseg p hp⟩)
    have hchimlen' : chim.length = H.segmented.length := by
      rw [hchimlen, hc0]
    have hmetAll : ∀ (c : List PyVal), c.length = chim.length →
        ∃ v vg, calcMetrics H (SampleVal.ann la) c = Except.ok (v, vg) := by
      intro c hc
      apply calcMetrics_exists
      · intro i hi
        have hi' : i ≤ H.vGeneEnd := by
          have := List.mem_range.mp hi
          omega
        constructor
        · refine ⟨_, (listGet_eq_ok c i _).mpr
            (List.getElem?_eq_getElem ?_)⟩
          rw [hc, hchimlen']
          omega
        · exact ⟨_, (listGet_eq_ok la i _).mpr
            (List.getElem?_eq_getElem (by rw [hla]; omega))⟩
      · obtain ⟨i0, hle, v, hv, hvx⟩ := hinf
        exact ⟨i0, List.mem_range.mpr (by omega), v,
          (listGet_eq_ok la i0 v).mpr hv, hvx⟩
    obtain ⟨v0, vg0, hm0⟩ := hmetAll chim rfl
    obtain ⟨final, trail, hloop⟩ :=
      @query_loop_exists H (SampleVal.ann la) tM tV cur0 mx 1 chim
        [⟨0, v0, vg0, Option.none⟩] (by rw [hc0, hchimlen'])
        (fun p hp => by rw [hchimlen']; exact hseg p hp)
        hmetAll
    refine ⟨seq_to_str final false, trail, ?_⟩
    rw [query_sample_ok hann hres']
    simp only [query_with_sample, hchim, hm0, hloop]

/-- A two-token human sample used by the witness runs. -/
def hhSeq : List PyVal := [PyVal.str "H", PyVal.str "H"]

/-- The annotated witness query sequence. -/
def abSeq : List PyVal := [PyVal.str "A", PyVal.str "B"]

/-- The witness chimeric seed: framework position from the sample, CDR
position from the query. -/
def hbSeq : List PyVal := [PyVal.str "H", PyVal.str "B"]

/-- A small concrete humanizer (constant model, one framework and one CDR
position, explicit human sample path) used to instantiate the theorems. -/
def goodHumanizer : ReverseHumanizer where
  model := fun _ => 1
  segmented := ["fwr1", "cdr1"]
  vGeneEnd := 0
  annotate := fun s =>
    if s = "AB" then some abSeq
    else if s = "HH" then some hhSeq
    else Option.none
  v_gene_scorer := Option.none
  skip_positions := []
  use_aa_similarity := false
  aaSim := fun _ _ => false

theorem goodChim : build_chimeric_go (SampleVal.ann hhSeq)
    goodHumanizer.segmented.enum abSeq = Except.ok hbSeq := rfl

theorem goodMetricsHB : calcMetrics goodHumanizer (SampleVal.ann hhSeq)
    hbSeq = Except.ok (1, some 1) := by
  have g : calc_score_go (listGet hbSeq)
      (sampleGetItem (SampleVal.ann hhSeq)) (List.range 1) 0 0 =
      Except.ok (1, 1) := rfl
  have hv : goodHumanizer.vGeneEnd = 0 := rfl
  unfold calcMetrics
  rw [hv, calc_score_core_ok g, if_neg (by decide : ¬(1 = 0))]
  norm_num
  rfl

theorem goodMetricsAB : calcMetrics goodHumanizer (SampleVal.ann hhSeq)
    abSeq = Except.ok (1, some 0) := by
  have g : calc_score_go (listGet abSeq)
      (sampleGetItem (SampleVal.ann hhSeq)) (List.range 1) 0 0 =
      Except.ok (0, 1) := rfl
  have hv : goodHumanizer.vGeneEnd = 0 := rfl
  unfold calcMetrics
  rw [hv, calc_score_core_ok g, if_neg (by decide : ¬(1 = 0))]
  norm_num
  rfl

theorem goodQueryZero :
    goodHumanizer.query "AB" 1 0 (some "HH") 0 =
      Except.ok (seq_to_str hbSeq false, [⟨0, 1, some 1, Option.none⟩]) := by
  have h2 : resolve_sample_value goodHumanizer (some "HH") abSeq =
      Except.ok (SampleVal.ann hhSeq) := rfl
  rw [query_sample_ok rfl h2]
  simp only [query_with_sample, goodChim, goodMetricsHB, query_loop]

theorem goodFindBest : find_best_change goodHumanizer hbSeq abSeq =
    Except.ok (⟨some 0, PyVal.str "H", PyVal.str "A", 1⟩, hbSeq) := rfl

theorem goodFindBestNull : find_best_change goodHumanizer abSeq abSeq =
    Except.ok (⟨Option.none, PyVal.none, PyVal.none, -1⟩, abSeq) := rfl

theorem goodStop : loop_step goodHumanizer (SampleVal.ann hhSeq) 1 0 abSeq 1
    abSeq [] = Except.ok (StepRes.stop abSeq []) := by
  simp only [loop_step, goodMetricsAB, goodFindBestNull]

theorem goodCont : loop_step goodHumanizer (SampleVal.ann hhSeq) 1 (-1) abSeq
    1 hbSeq [] = Except.ok (StepRes.cont abSeq
      [⟨1, 1, some 0, some ⟨some 0, PyVal.str "H", PyVal.str "A", 1⟩⟩]) := by
  have hget : listGet hbSeq 0 = Except.ok (PyVal.str "H") := rfl
  have hset : listSet hbSeq 0 (PyVal.str "A") = Except.ok abSeq := rfl
  simp only [loop_step, goodMetricsHB, goodFindBest, hget, hset,
    goodMetricsAB]
  norm_num [is_v_gene_score_less]

theorem c2_joint_objective_gate_witness :
    goodHumanizer.query "AB" 1 0 (some "HH") 0 =
      Except.ok (seq_to_str hbSeq false, [⟨0, 1, some 1, Option.none⟩]) ∧
    (∀ r ∈ [(⟨0, 1, some 1, Option.none⟩ : IterationDetails)],
      1 ≤ r.iteration → (1 : ℚ) ≤ r.modelMetric ∧
        is_v_gene_score_less (some (0 : ℚ)) r.vGeneScore = true) ∧
    loop_step goodHumanizer (SampleVal.ann hhSeq) 1 0 abSeq 1 abSeq [] =
      Except.ok (StepRes.stop abSeq []) ∧
    (abSeq = abSeq ∧ ([] : List IterationDetails) = []) :=
  ⟨goodQueryZero,
   c2_joint_objective_gate.1 goodHumanizer "AB" 1 0 (some "HH") 0
     (seq_to_str hbSeq false) [⟨0, 1, some 1, Option.none⟩] goodQueryZero,
   goodStop,
   c2_joint_objective_gate.2 goodHumanizer (SampleVal.ann hhSeq) 1 0 abSeq 1
     abSeq [] abSeq [] goodStop⟩

theorem c3_anti_cycling_witness :
    test_single_change (fun _ => (1 : ℚ)) abSeq 0 (PyVal.str "A") =
      Except.ok (⟨Option.none, PyVal.str "A", PyVal.none, -1⟩, abSeq) ∧
    (∃ v w, hbSeq[0]? = some v ∧ abSeq[0]? = some w ∧ v ≠ w ∧
      (⟨some 0, PyVal.str "H", PyVal.str "A", 1⟩ : SequenceChange).aa = w) ∧
    (⟨some 0, PyVal.str "H", PyVal.str "A",
      1⟩ : SequenceChange).position.isSome = true ∧
    (∃ pos v w, hbSeq[pos]? = some v ∧ abSeq[pos]? = some w ∧ v ≠ w ∧
      abSeq = hbSeq.set pos w ∧
      diff_count abSeq abSeq + 1 = diff_count hbSeq abSeq) :=
  ⟨c3_anti_cycling.1 (fun _ => (1 : ℚ)) abSeq 0 (PyVal.str "A") rfl,
   c3_anti_cycling.2.1 goodHumanizer hbSeq abSeq
     ⟨some 0, PyVal.str "H", PyVal.str "A", 1⟩ hbSeq 0 goodFindBest rfl,
   c3_anti_cycling.2.2.1 goodHumanizer hbSeq abSeq
     ⟨some 0, PyVal.str "H", PyVal.str "A", 1⟩ hbSeq 0 "fwr1"
     (fun l => by show (0 : ℚ) ≤ 1; norm_num) goodFindBest (by decide)
     (by decide)
     ⟨PyVal.str "H", PyVal.str "A", rfl, rfl, by decide⟩,
   c3_anti_cycling.2.2.2 goodHumanizer (SampleVal.ann hhSeq) 1 (-1) abSeq 1
     hbSeq [] abSeq
     [⟨1, 1, some 0, some ⟨some 0, PyVal.str "H", PyVal.str "A", 1⟩⟩]
     goodCont⟩

theorem c7_iteration_budget_witness :
    goodHumanizer.query "AB" 1 0 (some "HH") 0 =
      Except.ok (seq_to_str hbSeq false, [⟨0, 1, some 1, Option.none⟩]) ∧
    ([(⟨0, 1, some 1, Option.none⟩ : IterationDetails)]).length ≤ 0 + 1 := by
  have hq := c7_iteration_budget.2 goodHumanizer "AB" 1 0 (some "HH") abSeq
    hhSeq hbSeq 1 (some 1) rfl rfl goodChim goodMetricsHB
  exact ⟨hq, c7_iteration_budget.1 goodHumanizer "AB" 1 0 (some "HH") 0
    (seq_to_str hbSeq false) [⟨0, 1, some 1, Option.none⟩] hq⟩

theorem c9_error_handling_witness :
    goodHumanizer.annotate "ZZ" = Option.none ∧
    goodHumanizer.query "ZZ" 1 0 Option.none 1 =
      Except.error (PyErr.runtimeError ("ZZ" ++ " cannot be annotated")) ∧
    (∃ s trail, goodHumanizer.query "AB" 1 0 (some "HH") 0 =
      Except.ok (s, trail)) :=
  ⟨rfl,
   c9_error_handling.1 goodHumanizer "ZZ" 1 0 Option.none 1 rfl,
   c9_error_handling.2 goodHumanizer "AB" 1 0 (some "HH") 0 abSeq hhSeq rfl
     rfl rfl rfl (by decide)
     ⟨0, Nat.le_refl 0, PyVal.str "H", rfl, by decide⟩⟩

theorem c10_unannotatable_sample_fallback_witness :
    ("ZZ" : String) ≠ "" ∧ goodHumanizer.annotate "ZZ" = Option.none ∧
    goodHumanizer.query "AB" 1 0 (some "ZZ") 1 =
      goodHumanizer.query "AB" 1 0 Option.none 1 :=
  ⟨by decide, rfl,
   c10_unannotatable_sample_fallback goodHumanizer "AB" 1 0 1 "ZZ"
     (by decide) rfl⟩
